import Mathlib

/-!
# Brevy analytics pipeline — verification of the ingestion/aggregation core

Shallow embedding of the analytics service of the `brevy` URL shortener:

* `services/analytics/app/aggregators/stats_aggregator.py` — hourly/daily rollups
  and their scheduler loops;
* `services/analytics/app/services/click_storage.py` — batching storage buffer;
* `services/analytics/app/consumers/click_consumer.py` — pub/sub consumer;
* `packages/shared/src/brevy_shared/schemas.py` — the `ClickEvent` wire schema.

Timestamps are modelled as minutes since an epoch (`Nat`); `date_trunc('hour', t)`
becomes rounding down to a multiple of 60, `func.date(t)` becomes `t / 1440`.
Database tables with a unique key are modelled as association lists of
`(key, row)` pairs; the PostgreSQL `INSERT .. ON CONFLICT DO UPDATE` statement
becomes `Table.upsert`.  An SQL `SELECT` result set is a Lean list; `GROUP BY`
over a list of rows is denoted by grouping on keys in first-occurrence order
(`firstSeen`).  `ORDER BY count DESC LIMIT n` fixes no order among rows tied
on the sort key, so it is denoted by a predicate over outputs (`TopNResult`):
admissible results are the `n`-prefixes of the descending-sorted permutations
of the groups; where the embedding must store one concrete row value,
`rankDesc` supplies an (arbitrary) admissible representative.
-/

namespace Brevy

/-! ## Association tables with an atomic upsert

The rollup tables (`link_stats_hourly`, `link_stats_daily`) have a composite
primary key; `upsert` is the denotation of
`insert(...).on_conflict_do_update(index_elements=[key], set_=excluded values)`:
if some row already carries the key its values are replaced, otherwise a new
row is appended. -/

namespace Table

variable {α β : Type} [DecidableEq α]

/-- Denotes `INSERT .. ON CONFLICT DO UPDATE` keyed on the first component. -/
def upsert (t : List (α × β)) (k : α) (v : β) : List (α × β) :=
  if t.any (fun p => decide (p.1 = k)) then
    t.map (fun p => if p.1 = k then (k, v) else p)
  else
    t ++ [(k, v)]

/-- Value stored at key `k` (first matching row). -/
def lookupKey (t : List (α × β)) (k : α) : Option β :=
  (t.find? (fun p => decide (p.1 = k))).map Prod.snd

/-- Number of rows carrying key `k`. -/
def countKey (t : List (α × β)) (k : α) : Nat :=
  (t.filter (fun p => decide (p.1 = k))).length

/-- The table's unique-index invariant: no two rows share a key. -/
def KeysNodup (t : List (α × β)) : Prop :=
  (t.map Prod.fst).Nodup

/-- One aggregation pass: upsert the recomputed row `f k` for every key in `keys`. -/
def upsertAll (keys : List α) (f : α → β) (t : List (α × β)) : List (α × β) :=
  keys.foldl (fun acc k => upsert acc k (f k)) t

end Table

/-! ## Grouping in first-occurrence order

Denotation of SQL `GROUP BY` / `SELECT DISTINCT` over a list of rows:
the list of group keys, each kept at its first occurrence. -/

/-- Distinct elements of a list not yet in `seen`, in order of first occurrence. -/
def firstSeenFrom {α : Type} [DecidableEq α] : List α → List α → List α
  | _, [] => []
  | seen, a :: rest =>
    if a ∈ seen then firstSeenFrom seen rest
    else a :: firstSeenFrom (a :: seen) rest

/-- Distinct elements of a list, in order of first occurrence. -/
def firstSeen {α : Type} [DecidableEq α] (l : List α) : List α :=
  firstSeenFrom [] l

/-! ## Raw click records — `app/models/click.py`, class `Click`

Link ids abbreviate UUIDs, timestamps are minutes since an epoch.  The nullable
columns (`referrer`, `user_agent`, `ip_address`, `country`, `city`) are
`Option`s; the server-generated `id` and `created_at` columns play no role in
any aggregation query and are omitted. -/

structure Click where
  link_id : Nat
  short_code : String
  clicked_at : Nat
  referrer : Option String
  user_agent : Option String
  ip_address : Option String
  country : Option String
  city : Option String
deriving DecidableEq, Repr

/-- Denotes `func.date_trunc("hour", t)`: round a minute-level timestamp down to its hour. -/
def hourTrunc (t : Nat) : Nat := t - t % 60

/-- Denotes `func.date(t)`: the calendar day of a minute-level timestamp. -/
def dateOf (t : Nat) : Nat := t / 1440

/-- Denotes `func.count(func.distinct(col))` over a nullable column: SQL counts the
distinct non-null values. -/
def distinctCount (l : List (Option String)) : Nat :=
  (l.filterMap id).dedup.length

/-! ## Hourly aggregation — `stats_aggregator.py`, `StatsAggregator.aggregate_hourly`

The raw store is a list of `Click` rows; the `SELECT .. WHERE clicked_at >=
start_time GROUP BY link_id, date_trunc('hour', clicked_at)` query is denoted
by filtering the window and grouping keys in first-occurrence order. -/

/-- A row of `link_stats_hourly` (minus its key columns). -/
structure HourlyRow where
  click_count : Nat
  unique_visitors : Nat
deriving DecidableEq, Repr

/-- The rows of the raw store whose `clicked_at` is at or after the window start
(`.where(Click.clicked_at >= start_time)`). -/
def windowClicks (clicks : List Click) (startTime : Nat) : List Click :=
  clicks.filter (fun c => decide (startTime ≤ c.clicked_at))

/-- The `(link_id, hour)` group keys of the hourly query, in first-occurrence order. -/
def hourlyKeys (clicks : List Click) : List (Nat × Nat) :=
  firstSeen (clicks.map (fun c => (c.link_id, hourTrunc c.clicked_at)))

/-- The raw rows belonging to one `(link_id, hour)` group. -/
def hourlyGroup (clicks : List Click) (k : Nat × Nat) : List Click :=
  clicks.filter (fun c => decide (c.link_id = k.1 ∧ hourTrunc c.clicked_at = k.2))

/-- The aggregated values of one group: `count()` rows and
`count(distinct ip_address)`. -/
def hourlyRowFor (clicks : List Click) (k : Nat × Nat) : HourlyRow :=
  { click_count := (hourlyGroup clicks k).length
    unique_visitors := distinctCount ((hourlyGroup clicks k).map Click.ip_address) }

/-- The `link_stats_hourly` table, keyed by `(link_id, hour)` (its primary key). -/
abbrev HourlyTable := List ((Nat × Nat) × HourlyRow)

/-- Embeds `StatsAggregator.aggregate_hourly`: recompute the groups of the look-back
window and upsert one row per group; returns the number of upserted rows and
the new table. -/
def aggregate_hourly (clicks : List Click) (startTime : Nat) (table : HourlyTable) :
    Nat × HourlyTable :=
  let w := windowClicks clicks startTime
  let ks := hourlyKeys w
  (ks.length, Table.upsertAll ks (hourlyRowFor w) table)

/-- Clicks used by the end-to-end hourly scenario: three events for link 1
inside the hour bucket `600` (minutes 605, 610, 655 of the same hour), with two
distinct client IPs. -/
def hourlyScenarioClicks : List Click :=
  [ { link_id := 1, short_code := "abc", clicked_at := 605, referrer := none,
      user_agent := none, ip_address := some "10.0.0.1", country := none, city := none },
    { link_id := 1, short_code := "abc", clicked_at := 610, referrer := none,
      user_agent := none, ip_address := some "10.0.0.1", country := none, city := none },
    { link_id := 1, short_code := "abc", clicked_at := 655, referrer := none,
      user_agent := none, ip_address := some "10.0.0.2", country := none, city := none } ]

/-! ## Daily aggregation — `StatsAggregator.aggregate_daily` /
`_aggregate_daily_for_link`

The per-dimension ranked lists come from
`GROUP BY referrer ORDER BY count() DESC LIMIT top_n` (resp. `country`).
The queries give no secondary sort key, so the database determines no order
among groups tied on count: the query's denotation is the predicate
`TopNResult` below, and `rankDesc` is merely one admissible linearization,
used where a concrete row value must be produced. -/

/-- A row of `link_stats_daily` (minus its key columns).  The two ranked lists
are nullable JSONB columns. -/
structure DailyRow where
  click_count : Nat
  unique_visitors : Nat
  top_referrers : Option (List (String × Nat))
  top_countries : Option (List (String × Nat))
deriving DecidableEq, Repr

/-- The `link_stats_daily` table, keyed by `(link_id, date)` (its primary key). -/
abbrev DailyTable := List ((Nat × Nat) × DailyRow)

/-- Raw rows for one link on one date
(`.where(Click.link_id == link_id).where(func.date(Click.clicked_at) == target_date)`). -/
def dailyLinkClicks (clicks : List Click) (linkId targetDate : Nat) : List Click :=
  clicks.filter (fun c => decide (c.link_id = linkId ∧ dateOf c.clicked_at = targetDate))

/-- Denotes `GROUP BY value` with `count()` per group, groups in first-occurrence order. -/
def groupCounts (xs : List String) : List (String × Nat) :=
  (firstSeen xs).map (fun r => (r, xs.count r))

/-- Insert one `(value, count)` pair into a descending-sorted list, keeping it
sorted descending by count. -/
def insertRanked (p : String × Nat) : List (String × Nat) → List (String × Nat)
  | [] => [p]
  | q :: rest => if q.2 < p.2 then p :: q :: rest else q :: insertRanked p rest

/-- One descending-sorted permutation of the input, by insertion sort.  This is
a representative linearization of `ORDER BY count() DESC` (whose tie order the
database leaves open — see `TopNResult`), used where the embedding must store a
single concrete list. -/
def rankDesc (l : List (String × Nat)) : List (String × Nat) :=
  l.foldl (fun acc p => insertRanked p acc) []

/-- Denotation of `ORDER BY count() DESC LIMIT n` over the group counts:
`out` is an admissible result iff it is the `n`-prefix of some
descending-sorted permutation of the groups.  The source queries
(`order_by(func.count().desc()).limit(self._top_n)`) give no secondary sort
key, so the relative order of groups tied on count is not determined. -/
def TopNResult (pairs : List (String × Nat)) (n : Nat) (out : List (String × Nat)) : Prop :=
  ∃ ranked : List (String × Nat),
    List.Perm ranked pairs ∧
    ranked.Pairwise (fun a b => b.2 ≤ a.2) ∧
    out = ranked.take n

/-- The non-null, non-empty referrer values of one link/date group
(`.where(Click.referrer.isnot(None)).where(Click.referrer != "")`). -/
def referrerValues (clicks : List Click) (linkId targetDate : Nat) : List String :=
  (dailyLinkClicks clicks linkId targetDate).filterMap
    (fun c => match c.referrer with
      | none => none
      | some r => if r = "" then none else some r)

/-- The non-null country values of one link/date group
(`.where(Click.country.isnot(None))`). -/
def countryValues (clicks : List Click) (linkId targetDate : Nat) : List String :=
  (dailyLinkClicks clicks linkId targetDate).filterMap Click.country

/-- A representative result of the daily top-referrer query (group, sort
descending by count, `LIMIT top_n`), used as the stored row value. -/
def topReferrers (clicks : List Click) (linkId targetDate n : Nat) : List (String × Nat) :=
  (rankDesc (groupCounts (referrerValues clicks linkId targetDate))).take n

/-- A representative result of the daily top-country query (group, sort
descending by count, `LIMIT top_n`), used as the stored row value. -/
def topCountries (clicks : List Click) (linkId targetDate n : Nat) : List (String × Nat) :=
  (rankDesc (groupCounts (countryValues clicks linkId targetDate))).take n

/-- Admissible results of the daily top-referrer query
(`GROUP BY referrer ORDER BY count() DESC LIMIT top_n`). -/
def topReferrersResult (clicks : List Click) (linkId targetDate n : Nat)
    (out : List (String × Nat)) : Prop :=
  TopNResult (groupCounts (referrerValues clicks linkId targetDate)) n out

/-- Admissible results of the daily top-country query
(`GROUP BY country ORDER BY count() DESC LIMIT top_n`). -/
def topCountriesResult (clicks : List Click) (linkId targetDate n : Nat)
    (out : List (String × Nat)) : Prop :=
  TopNResult (groupCounts (countryValues clicks linkId targetDate)) n out

/-- Embeds `StatsAggregator._aggregate_daily_for_link`: recompute the stats of one
link/date pair and upsert them, unless the pair has no clicks (then nothing is
written).  The returned flag tells whether a row was upserted. -/
def aggregate_daily_for_link (clicks : List Click) (linkId targetDate n : Nat)
    (table : DailyTable) : DailyTable × Bool :=
  let cs := dailyLinkClicks clicks linkId targetDate
  if cs.length = 0 then (table, false)
  else
    let tr := topReferrers clicks linkId targetDate n
    let tc := topCountries clicks linkId targetDate n
    (Table.upsert table (linkId, targetDate)
      { click_count := cs.length
        unique_visitors := distinctCount (cs.map Click.ip_address)
        top_referrers := if tr.isEmpty then none else some tr
        top_countries := if tc.isEmpty then none else some tc }, true)

/-- Denotes `SELECT DISTINCT link_id .. WHERE func.date(clicked_at) >= start_date`. -/
def dailyLinkIds (clicks : List Click) (startDate : Nat) : List Nat :=
  firstSeen ((clicks.filter (fun c => decide (startDate ≤ dateOf c.clicked_at))).map Click.link_id)

/-- Embeds `StatsAggregator.aggregate_daily`: for every distinct link with clicks in
the window and every date of the window, recompute-and-upsert.  Returns the
`rows_upserted` counter of the source (incremented once per examined pair),
the new table, and the number of rows actually written. -/
def aggregate_daily (clicks : List Click) (daysBack today n : Nat) (table : DailyTable) :
    Nat × DailyTable × Nat :=
  let startDate := today - daysBack
  let lids := dailyLinkIds clicks startDate
  if lids.isEmpty then (0, table, 0)
  else
    lids.foldl (fun acc lid =>
      (List.range (daysBack + 1)).foldl (fun acc2 off =>
        let r := aggregate_daily_for_link clicks lid (startDate + off) n acc2.2.1
        (acc2.1 + 1, r.1, acc2.2.2 + if r.2 then 1 else 0)) acc)
      (0, table, 0)

/-- Clicks used by the top-N tie scenario: one link, one date, referrer counts
`A:5, B:5, C:3` with `A` seen before `B`. -/
def topNScenarioClicks : List Click :=
  (List.range 5).map (fun i =>
    { link_id := 1, short_code := "abc", clicked_at := 10 + 3 * i, referrer := some "A",
      user_agent := none, ip_address := none, country := none, city := none })
  ++ (List.range 5).map (fun i =>
    { link_id := 1, short_code := "abc", clicked_at := 11 + 3 * i, referrer := some "B",
      user_agent := none, ip_address := none, country := none, city := none })
  ++ (List.range 3).map (fun i =>
    { link_id := 1, short_code := "abc", clicked_at := 12 + 3 * i, referrer := some "C",
      user_agent := none, ip_address := none, country := none, city := none })

/-! ## Scheduler loops — `StatsAggregator._hourly_loop` / `_daily_loop`

Each tick awaits the interval, runs the aggregation, and on success increments
the run counter; an exception is caught inside the loop body and logged.  A
tick's outcome (the aggregation's return value, or the exception it raised) is
the environment's input to the step function. -/

/-- The aggregator's mutable state: its two run counters and the log. -/
structure AggregatorState where
  hourly_runs : Nat
  daily_runs : Nat
  log : List String
deriving DecidableEq, Repr

/-- One iteration of the `while` body of `_hourly_loop`. -/
def hourly_tick (outcome : Except String Nat) (s : AggregatorState) : AggregatorState :=
  match outcome with
  | .ok _ => { s with hourly_runs := s.hourly_runs + 1 }
  | .error e => { s with log := s.log ++ ["Hourly aggregation failed: " ++ e] }

/-- One iteration of the `while` body of `_daily_loop`. -/
def daily_tick (outcome : Except String Nat) (s : AggregatorState) : AggregatorState :=
  match outcome with
  | .ok _ => { s with daily_runs := s.daily_runs + 1 }
  | .error e => { s with log := s.log ++ ["Daily aggregation failed: " ++ e] }

/-- Embeds `_hourly_loop` over a finite schedule of tick outcomes. -/
def hourly_loop (outcomes : List (Except String Nat)) (s : AggregatorState) : AggregatorState :=
  outcomes.foldl (fun s o => hourly_tick o s) s

/-- Embeds `_daily_loop` over a finite schedule of tick outcomes. -/
def daily_loop (outcomes : List (Except String Nat)) (s : AggregatorState) : AggregatorState :=
  outcomes.foldl (fun s o => daily_tick o s) s

/-- Whether a tick's aggregation completed without raising. -/
def tickOk : Except String Nat → Bool
  | .ok _ => true
  | .error _ => false

/-! ## Storage buffer — `click_storage.py`, `ClickStorageService`

State of the batching service: the in-memory buffer, the two success counters,
and the `analytics_pending_clicks` gauge.  `_batch_insert` either succeeds or
raises; the environment supplies that outcome as a boolean. -/

structure StorageState where
  buffer : List Click
  clicks_stored : Nat
  batches_flushed : Nat
  pending_gauge : Nat
deriving DecidableEq, Repr

/-- Embeds `ClickStorageService._flush_buffer_locked` (runs with the buffer lock held):
snapshot and clear the buffer, attempt the bulk insert; on success bump the
counters, on failure extend the (cleared) buffer with the failed snapshot. -/
def flush_buffer_locked (insertOk : Bool) (s : StorageState) : StorageState :=
  if s.buffer.isEmpty then s
  else
    let snapshot := s.buffer
    let s1 : StorageState := { s with buffer := [], pending_gauge := 0 }
    if insertOk then
      { s1 with clicks_stored := s1.clicks_stored + snapshot.length
                batches_flushed := s1.batches_flushed + 1 }
    else
      { s1 with buffer := s1.buffer ++ snapshot
                pending_gauge := (s1.buffer ++ snapshot).length }

/-! ### Lock-discipline traces

The atomic steps of the two flush paths, in the order the source executes
them.  `acquire`/`release` delimit the `async with self._buffer_lock` block;
`dbInsert` is the `await self._batch_insert(...)` call. -/

inductive BufAction
  | acquire
  | release
  | append
  | snapshotClear
  | dbInsert
  | reappend
  | incrCounters
deriving DecidableEq, Repr

/-- Steps of `_flush_buffer_locked`, which its callers run with the lock held. -/
def flushLockedTrace (bufEmpty insertOk : Bool) : List BufAction :=
  if bufEmpty then []
  else [.snapshotClear, .dbInsert] ++ (if insertOk then [.incrCounters] else [.reappend])

/-- Steps of `_flush_buffer` (the timer-triggered path): the whole locked flush
runs inside the `async with self._buffer_lock` block. -/
def flushBufferTrace (bufEmpty insertOk : Bool) : List BufAction :=
  [.acquire] ++ flushLockedTrace bufEmpty insertOk ++ [.release]

/-- Steps of `_add_to_buffer` (the size-triggered path): append, and when the
batch size is reached, flush inline — still inside the lock block (the buffer
is non-empty right after the append). -/
def addToBufferTrace (sizeTrigger insertOk : Bool) : List BufAction :=
  [.acquire, .append] ++ (if sizeTrigger then flushLockedTrace false insertOk else []) ++ [.release]

/-- Scans a trace with the current lock depth: `true` iff every occurrence of
`target` happens while the lock is held. -/
def underLockScan (target : BufAction) : List BufAction → Nat → Bool
  | [], _ => true
  | a :: rest, depth =>
    if a = BufAction.acquire then underLockScan target rest (depth + 1)
    else if a = BufAction.release then underLockScan target rest (depth - 1)
    else if a = target then decide (0 < depth) && underLockScan target rest depth
    else underLockScan target rest depth

/-- Scans a trace with the current lock depth: `true` iff every occurrence of
`target` happens with the lock released. -/
def outsideLockScan (target : BufAction) : List BufAction → Nat → Bool
  | [], _ => true
  | a :: rest, depth =>
    if a = BufAction.acquire then outsideLockScan target rest (depth + 1)
    else if a = BufAction.release then outsideLockScan target rest (depth - 1)
    else if a = target then decide (depth = 0) && outsideLockScan target rest depth
    else outsideLockScan target rest depth

/-! ## Event schema — `brevy_shared/schemas.py`, class `ClickEvent`

`link_id` and `short_code` have no default, so pydantic requires them;
`clicked_at` has `default_factory=datetime.utcnow`; the remaining three fields
default to `None`. -/

structure ClickEvent where
  link_id : Nat
  short_code : String
  clicked_at : Nat
  referrer : Option String
  user_agent : Option String
  ip_address : Option String
deriving DecidableEq, Repr

/-- A decoded JSON object that may or may not carry each `ClickEvent` field
(`none` = absent). -/
structure RawClickPayload where
  link_id : Option Nat
  short_code : Option String
  clicked_at : Option Nat
  referrer : Option String
  user_agent : Option String
  ip_address : Option String
deriving DecidableEq, Repr

/-- Embeds `ClickEvent.model_validate`: fails iff a required field (`link_id`,
`short_code`) is absent; `clicked_at` falls back to the current UTC time,
the other optionals to `None`. -/
def validateClickEvent (now : Nat) (p : RawClickPayload) : Option ClickEvent :=
  match p.link_id, p.short_code with
  | some lid, some sc =>
      some { link_id := lid, short_code := sc
             clicked_at := p.clicked_at.getD now
             referrer := p.referrer, user_agent := p.user_agent
             ip_address := p.ip_address }
  | _, _ => none

/-! ## Consumer — `click_consumer.py`, `ClickEventConsumer._process_message`

A raw message either fails `json.loads` (`malformed`) or decodes to an object
(`payload`), which is then validated.  Handlers are named async functions that
either return or raise; invoking one is recorded by name so that invocation
order is observable. -/

inductive InboundMessage
  | malformed (raw : String)
  | payload (p : RawClickPayload)
deriving DecidableEq, Repr

/-- A registered handler: its `__name__` and its body. -/
abbrev Handler := String × (ClickEvent → Except String Unit)

/-- The consumer's counters (`_events_processed`, `_events_failed`, the
prometheus counters by reason, the latency histogram's observation count)
and its log. -/
structure ConsumerState where
  events_processed : Nat
  events_failed : Nat
  received_total : Nat
  processed_total : Nat
  failed_invalid_json : Nat
  failed_invalid_schema : Nat
  latencies_recorded : Nat
  log : List String
deriving DecidableEq, Repr

/-- The `for handler in self._handlers` loop: every handler is invoked in
order; a raising handler adds a log entry and the loop continues.  Returns the
names invoked (in invocation order) and the error log entries produced. -/
def runHandlers (handlers : List Handler) (e : ClickEvent) : List String × List String :=
  handlers.foldl (fun acc h =>
    match h.2 e with
    | .ok _ => (acc.1 ++ [h.1], acc.2)
    | .error _ => (acc.1 ++ [h.1], acc.2 ++ ["Handler error: " ++ h.1])) ([], [])

/-- Embeds `ClickEventConsumer._process_message`: returns the new state and the list
of handler invocations (by name, in order). -/
def process_message (now : Nat) (handlers : List Handler) (m : InboundMessage)
    (s : ConsumerState) : ConsumerState × List String :=
  let s0 : ConsumerState := { s with received_total := s.received_total + 1 }
  match m with
  | .malformed _ =>
      ({ s0 with events_failed := s0.events_failed + 1
                 failed_invalid_json := s0.failed_invalid_json + 1
                 log := s0.log ++ ["Invalid JSON in click event"] }, [])
  | .payload p =>
      match validateClickEvent now p with
      | none =>
          ({ s0 with events_failed := s0.events_failed + 1
                     failed_invalid_schema := s0.failed_invalid_schema + 1
                     log := s0.log ++ ["Invalid click event schema"] }, [])
      | some e =>
          let r := runHandlers handlers e
          ({ s0 with events_processed := s0.events_processed + 1
                     processed_total := s0.processed_total + 1
                     latencies_recorded := s0.latencies_recorded + 1
                     log := s0.log ++ r.2 }, r.1)

/-- Embeds `ClickEventConsumer._consume_loop` over a finite schedule of messages:
processes each in turn, accumulating handler invocations. -/
def consume_loop (now : Nat) (handlers : List Handler) (msgs : List InboundMessage)
    (s : ConsumerState) : ConsumerState × List String :=
  msgs.foldl (fun acc m =>
    let r := process_message now handlers m acc.1
    (r.1, acc.2 ++ r.2)) (s, [])

/-! ## Lemmas about the upsert table -/

namespace Table

variable {α β : Type} [DecidableEq α]

theorem upsert_keysNodup {t : List (α × β)} (h : KeysNodup t) (k : α) (v : β) :
    KeysNodup (upsert t k v) := by
  unfold upsert
  split
  · unfold KeysNodup at h ⊢
    have hmap : (t.map (fun p => if p.1 = k then (k, v) else p)).map Prod.fst
        = t.map Prod.fst := by
      rw [List.map_map]
      apply List.map_congr_left
      intro p _
      by_cases hp : p.1 = k <;> simp [hp]
    rw [hmap]
    exact h
  · rename_i hnone
    unfold KeysNodup at h ⊢
    rw [List.map_append, List.nodup_append]
    refine ⟨h, by simp, ?_⟩
    intro a ha hb
    simp only [List.map_cons, List.map_nil, List.mem_singleton] at hb
    apply hnone
    rw [List.any_eq_true]
    simp only [List.mem_map] at ha
    obtain ⟨p, hp, hpk⟩ := ha
    exact ⟨p, hp, by simp [hpk, hb]⟩

theorem lookupKey_upsert_self (t : List (α × β)) (k : α) (v : β) :
    lookupKey (upsert t k v) k = some v := by
  unfold upsert
  split
  · rename_i hsome
    unfold lookupKey
    induction t with
    | nil => simp at hsome
    | cons p rest ih =>
      by_cases hp : p.1 = k
      · simp [List.find?, hp]
      · simp only [List.map_cons, if_neg hp]
        rw [List.find?_cons_of_neg _ (by simp [hp])]
        apply ih
        simp only [List.any_cons] at hsome
        rcases Bool.or_eq_true_iff.mp hsome with h1 | h2
        · exact absurd (of_decide_eq_true h1) hp
        · exact h2
  · rename_i hnone
    unfold lookupKey
    rw [List.find?_append]
    have : t.find? (fun p => decide (p.1 = k)) = none := by
      rw [List.find?_eq_none]
      intro p hp
      simp only [decide_eq_true_eq]
      intro hpk
      exact hnone (by rw [List.any_eq_true]; exact ⟨p, hp, by simp [hpk]⟩)
    simp [this, List.find?]

theorem lookupKey_upsert_ne (t : List (α × β)) {k k' : α} (hne : k' ≠ k) (v : β) :
    lookupKey (upsert t k' v) k = lookupKey t k := by
  unfold upsert
  split
  · rename_i hsome
    clear hsome
    unfold lookupKey
    congr 1
    induction t with
    | nil => simp
    | cons p rest ih =>
      by_cases hp : p.1 = k'
      · have hpk : ¬ p.1 = k := by rw [hp]; exact hne
        simp only [List.map_cons, if_pos hp]
        rw [List.find?_cons_of_neg _ (by simp [hne]),
          List.find?_cons_of_neg _ (by simp [hpk])]
        exact ih
      · simp only [List.map_cons, if_neg hp]
        by_cases hpk : p.1 = k
        · rw [List.find?_cons_of_pos _ (by simp [hpk]),
            List.find?_cons_of_pos _ (by simp [hpk])]
        · rw [List.find?_cons_of_neg _ (by simp [hpk]),
            List.find?_cons_of_neg _ (by simp [hpk])]
          exact ih
  · unfold lookupKey
    rw [List.find?_append]
    cases hfind : t.find? (fun p => decide (p.1 = k)) with
    | some p => simp
    | none =>
      simp only [Option.none_or]
      rw [List.find?_cons_of_neg _ (by simp [hne]), List.find?_nil]

theorem countKey_le_one {t : List (α × β)} (h : KeysNodup t) (k : α) :
    countKey t k ≤ 1 := by
  unfold countKey
  induction t with
  | nil => simp
  | cons p rest ih =>
    unfold KeysNodup at h
    simp only [List.map_cons, List.nodup_cons] at h
    by_cases hp : p.1 = k
    · rw [List.filter_cons_of_pos (by simp [hp])]
      have hnil : rest.filter (fun q => decide (q.1 = k)) = [] := by
        rw [List.filter_eq_nil_iff]
        intro q hq
        simp only [decide_eq_true_eq]
        intro hqk
        apply h.1
        rw [← hp] at hqk
        rw [← hqk]
        exact List.mem_map_of_mem Prod.fst hq
      simp [hnil]
    · rw [List.filter_cons_of_neg (by simp [hp])]
      exact ih h.2

theorem countKey_pos_of_lookup {t : List (α × β)} {k : α} {v : β}
    (h : lookupKey t k = some v) : 1 ≤ countKey t k := by
  unfold lookupKey at h
  unfold countKey
  cases hfind : t.find? (fun p => decide (p.1 = k)) with
  | none => rw [hfind] at h; simp at h
  | some p =>
    have hmem := List.mem_of_find?_eq_some hfind
    have hpred := List.find?_some (p := fun q : α × β => decide (q.1 = k)) hfind
    have : p ∈ t.filter (fun p => decide (p.1 = k)) :=
      List.mem_filter.mpr ⟨hmem, hpred⟩
    calc 1 ≤ (t.filter (fun p => decide (p.1 = k))).length :=
      List.length_pos.mpr (List.ne_nil_of_mem this)
    _ = _ := rfl

theorem countKey_upsert_self {t : List (α × β)} (h : KeysNodup t) (k : α) (v : β) :
    countKey (upsert t k v) k = 1 := by
  have h1 : lookupKey (upsert t k v) k = some v := lookupKey_upsert_self t k v
  have h2 : KeysNodup (upsert t k v) := upsert_keysNodup h k v
  exact Nat.le_antisymm (countKey_le_one h2 k) (countKey_pos_of_lookup h1)

/-- Re-upserting the value a key already holds leaves the table unchanged. -/
theorem upsert_eq_self {t : List (α × β)} (h : KeysNodup t) {k : α} {v : β}
    (hl : lookupKey t k = some v) : upsert t k v = t := by
  unfold upsert
  have hany : t.any (fun p => decide (p.1 = k)) = true := by
    unfold lookupKey at hl
    cases hfind : t.find? (fun p => decide (p.1 = k)) with
    | none => rw [hfind] at hl; simp at hl
    | some p =>
      rw [List.any_eq_true]
      exact ⟨p, List.mem_of_find?_eq_some hfind,
        List.find?_some (p := fun q : α × β => decide (q.1 = k)) hfind⟩
  rw [if_pos hany]
  unfold lookupKey at hl
  clear hany
  induction t with
  | nil => simp at hl
  | cons p rest ih =>
    unfold KeysNodup at h
    simp only [List.map_cons, List.nodup_cons] at h
    by_cases hp : p.1 = k
    · rw [List.find?_cons_of_pos _ (by simp [hp])] at hl
      simp at hl
      have hpkv : p = (k, v) := by
        obtain ⟨a, b⟩ := p
        simp only [Prod.mk.injEq]
        exact ⟨hp, hl⟩
      have hrest : rest.map (fun q => if q.1 = k then (k, v) else q) = rest.map id := by
        apply List.map_congr_left
        intro q hq
        have hqk : ¬ q.1 = k := by
          intro hqk
          apply h.1
          rw [← hp] at hqk
          rw [← hqk]
          exact List.mem_map_of_mem Prod.fst hq
        simp [hqk]
      rw [List.map_cons, if_pos hp, hrest, List.map_id, hpkv]
    · rw [List.find?_cons_of_neg _ (by simp [hp])] at hl
      simp only [List.map_cons, if_neg hp, List.cons_inj_right]
      exact ih h.2 hl

theorem countKey_upsert_ne (t : List (α × β)) {k k' : α} (hne : k' ≠ k) (v : β) :
    countKey (upsert t k' v) k = countKey t k := by
  unfold upsert
  split
  · rename_i hsome
    clear hsome
    unfold countKey
    congr 1
    induction t with
    | nil => simp
    | cons p rest ih =>
      by_cases hp : p.1 = k'
      · have hpk : ¬ p.1 = k := by rw [hp]; exact hne
        simp only [List.map_cons, if_pos hp]
        rw [List.filter_cons_of_neg (by simp [hne]),
          List.filter_cons_of_neg (by simp [hpk])]
        exact ih
      · simp only [List.map_cons, if_neg hp]
        by_cases hpk : p.1 = k
        · rw [List.filter_cons_of_pos (by simp [hpk]),
            List.filter_cons_of_pos (by simp [hpk])]
          rw [ih]
        · rw [List.filter_cons_of_neg (by simp [hpk]),
            List.filter_cons_of_neg (by simp [hpk])]
          exact ih
  · unfold countKey
    rw [List.filter_append, List.filter_cons_of_neg (by simp [hne])]
    simp

theorem upsertAll_keysNodup (keys : List α) (f : α → β) {t : List (α × β)}
    (h : KeysNodup t) : KeysNodup (upsertAll keys f t) := by
  induction keys generalizing t with
  | nil => exact h
  | cons k rest ih => exact ih (upsert_keysNodup h k (f k))

theorem upsertAll_not_mem (keys : List α) (f : α → β) (t : List (α × β)) {k : α}
    (hk : k ∉ keys) :
    lookupKey (upsertAll keys f t) k = lookupKey t k ∧
      countKey (upsertAll keys f t) k = countKey t k := by
  induction keys generalizing t with
  | nil => exact ⟨rfl, rfl⟩
  | cons k0 rest ih =>
    have hne : k0 ≠ k := fun h => hk (h ▸ List.mem_cons_self k0 rest)
    have hk' : k ∉ rest := fun h => hk (List.mem_cons_of_mem k0 h)
    have hstep : upsertAll (k0 :: rest) f t = upsertAll rest f (upsert t k0 (f k0)) := rfl
    rw [hstep]
    refine ⟨?_, ?_⟩
    · rw [(ih (upsert t k0 (f k0)) hk').1, lookupKey_upsert_ne t hne]
    · rw [(ih (upsert t k0 (f k0)) hk').2, countKey_upsert_ne t hne]

/-- After one pass, every key of the pass holds exactly one row, carrying the
recomputed value. -/
theorem upsertAll_mem (keys : List α) (f : α → β) {t : List (α × β)}
    (hnd : keys.Nodup) (ht : KeysNodup t) {k : α} (hk : k ∈ keys) :
    lookupKey (upsertAll keys f t) k = some (f k) ∧
      countKey (upsertAll keys f t) k = 1 := by
  induction keys generalizing t with
  | nil => cases hk
  | cons k0 rest ih =>
    have hnd' : rest.Nodup := (List.nodup_cons.mp hnd).2
    have hstep : upsertAll (k0 :: rest) f t = upsertAll rest f (upsert t k0 (f k0)) := rfl
    rw [hstep]
    by_cases hkk : k = k0
    · subst hkk
      have hknr : k ∉ rest := (List.nodup_cons.mp hnd).1
      have h1 := upsertAll_not_mem rest f (upsert t k (f k)) hknr
      rw [h1.1, h1.2, lookupKey_upsert_self, countKey_upsert_self ht]
      exact ⟨rfl, rfl⟩
    · have hkr : k ∈ rest := by
        cases List.mem_cons.mp hk with
        | inl h => exact absurd h hkk
        | inr h => exact h
      exact ih hnd' (upsert_keysNodup ht k0 (f k0)) hkr

/-- Upserting values the table already holds is a no-op. -/
theorem upsertAll_idem (keys : List α) (f : α → β) {t : List (α × β)}
    (ht : KeysNodup t) (hall : ∀ k ∈ keys, lookupKey t k = some (f k)) :
    upsertAll keys f t = t := by
  induction keys with
  | nil => rfl
  | cons k0 rest ih =>
    have hstep : upsertAll (k0 :: rest) f t = upsertAll rest f (upsert t k0 (f k0)) := rfl
    rw [hstep]
    rw [upsert_eq_self ht (hall k0 (List.mem_cons_self k0 rest))]
    exact ih (fun k hk => hall k (List.mem_cons_of_mem k0 hk))

end Table

theorem mem_firstSeenFrom {α : Type} [DecidableEq α] (l : List α) :
    ∀ (seen : List α) (a : α),
      a ∈ firstSeenFrom seen l ↔ a ∈ l ∧ a ∉ seen := by
  induction l with
  | nil => intro seen a; simp [firstSeenFrom]
  | cons b rest ih =>
    intro seen a
    unfold firstSeenFrom
    by_cases hb : b ∈ seen
    · rw [if_pos hb, ih]
      constructor
      · rintro ⟨h1, h2⟩
        exact ⟨List.mem_cons_of_mem _ h1, h2⟩
      · rintro ⟨h1, h2⟩
        rcases List.mem_cons.mp h1 with rfl | h1'
        · exact absurd hb h2
        · exact ⟨h1', h2⟩
    · rw [if_neg hb]
      simp only [List.mem_cons, ih, List.mem_cons]
      by_cases hab : a = b
      · subst hab
        simp [hb]
      · simp only [hab, false_or]

theorem firstSeenFrom_nodup {α : Type} [DecidableEq α] (l : List α) :
    ∀ seen : List α, (firstSeenFrom seen l).Nodup := by
  induction l with
  | nil => intro seen; simp [firstSeenFrom]
  | cons b rest ih =>
    intro seen
    unfold firstSeenFrom
    by_cases hb : b ∈ seen
    · rw [if_pos hb]
      exact ih seen
    · rw [if_neg hb]
      refine List.nodup_cons.mpr ⟨?_, ih (b :: seen)⟩
      rw [mem_firstSeenFrom]
      rintro ⟨-, h2⟩
      exact h2 (List.mem_cons_self b seen)

theorem mem_firstSeen {α : Type} [DecidableEq α] (l : List α) (a : α) :
    a ∈ firstSeen l ↔ a ∈ l := by
  unfold firstSeen
  rw [mem_firstSeenFrom]
  simp

theorem firstSeen_nodup {α : Type} [DecidableEq α] (l : List α) :
    (firstSeen l).Nodup :=
  firstSeenFrom_nodup l []

/-! ## Hourly aggregation: correctness and idempotence -/

theorem aggregate_hourly_snd (clicks : List Click) (startTime : Nat) (table : HourlyTable) :
    (aggregate_hourly clicks startTime table).2 =
      Table.upsertAll (hourlyKeys (windowClicks clicks startTime))
        (hourlyRowFor (windowClicks clicks startTime)) table := rfl

theorem mem_hourlyKeys_of_click {clicks : List Click} {startTime L H : Nat}
    (c : Click) (hc : c ∈ clicks) (hw : startTime ≤ c.clicked_at)
    (hL : c.link_id = L) (hH : hourTrunc c.clicked_at = H) :
    (L, H) ∈ hourlyKeys (windowClicks clicks startTime) := by
  unfold hourlyKeys
  rw [mem_firstSeen]
  rw [List.mem_map]
  refine ⟨c, ?_, by rw [hL, hH]⟩
  unfold windowClicks
  rw [List.mem_filter]
  exact ⟨hc, by simp [hw]⟩

/-- C1: for every link `L` and hour bucket `H` that has a raw click at or
after the look-back window start, one run of the hourly job leaves exactly one
`link_stats_hourly` row keyed `(L, H)`, whose `click_count` is the number of
raw click rows of the group and whose `unique_visitors` is the number of
distinct (non-null) client IPs of the group. -/
theorem hourly_row_counts_correct (clicks : List Click) (startTime : Nat)
    (table : HourlyTable) (L H : Nat) (ht : Table.KeysNodup table)
    (hin : ∃ c ∈ clicks, startTime ≤ c.clicked_at ∧ c.link_id = L ∧
      hourTrunc c.clicked_at = H) :
    Table.countKey (aggregate_hourly clicks startTime table).2 (L, H) = 1 ∧
    Table.lookupKey (aggregate_hourly clicks startTime table).2 (L, H) =
      some { click_count := (hourlyGroup (windowClicks clicks startTime) (L, H)).length
             unique_visitors := distinctCount
               ((hourlyGroup (windowClicks clicks startTime) (L, H)).map Click.ip_address) } := by
  obtain ⟨c, hc, hw, hL, hH⟩ := hin
  have hmem : (L, H) ∈ hourlyKeys (windowClicks clicks startTime) :=
    mem_hourlyKeys_of_click c hc hw hL hH
  have h := Table.upsertAll_mem (hourlyKeys (windowClicks clicks startTime))
    (hourlyRowFor (windowClicks clicks startTime))
    (firstSeen_nodup _) ht hmem
  rw [aggregate_hourly_snd]
  exact ⟨h.2, h.1⟩

/-- C1 witness: the end-to-end scenario — three clicks for link 1 in the hour
bucket 600 with two distinct IPs produce exactly one row with
`click_count = 3` and `unique_visitors = 2`. -/
theorem hourly_row_counts_correct_witness :
    (Table.KeysNodup ([] : HourlyTable) ∧
      ∃ c ∈ hourlyScenarioClicks, 540 ≤ c.clicked_at ∧ c.link_id = 1 ∧
        hourTrunc c.clicked_at = 600) ∧
    Table.countKey (aggregate_hourly hourlyScenarioClicks 540 []).2 (1, 600) = 1 ∧
    Table.lookupKey (aggregate_hourly hourlyScenarioClicks 540 []).2 (1, 600) =
      some { click_count := 3, unique_visitors := 2 } := by
  refine ⟨⟨by simp [Table.KeysNodup], by decide⟩, ?_, ?_⟩
  · exact (hourly_row_counts_correct hourlyScenarioClicks 540 [] 1 600
      (by simp [Table.KeysNodup]) (by decide)).1
  · rw [(hourly_row_counts_correct hourlyScenarioClicks 540 [] 1 600
      (by simp [Table.KeysNodup]) (by decide)).2]
    decide

/-- C2: the hourly job is idempotent — a second run over the same raw data
recomputes the same rows and upserts them in place, leaving the
`link_stats_hourly` table exactly as the first run left it. -/
theorem hourly_aggregation_idempotent (clicks : List Click) (startTime : Nat)
    (table : HourlyTable) (ht : Table.KeysNodup table) :
    (aggregate_hourly clicks startTime
        (aggregate_hourly clicks startTime table).2).2 =
      (aggregate_hourly clicks startTime table).2 := by
  rw [aggregate_hourly_snd, aggregate_hourly_snd]
  have ht1 : Table.KeysNodup (Table.upsertAll (hourlyKeys (windowClicks clicks startTime))
      (hourlyRowFor (windowClicks clicks startTime)) table) :=
    Table.upsertAll_keysNodup _ _ ht
  apply Table.upsertAll_idem _ _ ht1
  intro k hk
  exact (Table.upsertAll_mem _ _ (firstSeen_nodup _) ht hk).1

/-- C2 witness: running the hourly job twice on the scenario data from an
empty table leaves the table of the first run unchanged. -/
theorem hourly_aggregation_idempotent_witness :
    Table.KeysNodup ([] : HourlyTable) ∧
    (aggregate_hourly hourlyScenarioClicks 540
        (aggregate_hourly hourlyScenarioClicks 540 []).2).2 =
      (aggregate_hourly hourlyScenarioClicks 540 []).2 :=
  ⟨by simp [Table.KeysNodup],
    hourly_aggregation_idempotent hourlyScenarioClicks 540 [] (by simp [Table.KeysNodup])⟩

/-! ## Storage buffer: failure retry and lock discipline -/

/-- C3: when the bulk insert of a flushed snapshot fails, the whole snapshot is
back on the live buffer afterwards (no buffered event is lost, the same records
are retried on the next trigger) and neither success counter moves; when the
insert succeeds on a non-empty buffer, `clicks_stored` grows by the snapshot
size and `batches_flushed` by one. -/
theorem flush_failure_requeues_snapshot (s : StorageState) :
    (flush_buffer_locked false s).buffer = s.buffer ∧
    (flush_buffer_locked false s).clicks_stored = s.clicks_stored ∧
    (flush_buffer_locked false s).batches_flushed = s.batches_flushed ∧
    (s.buffer ≠ [] →
      (flush_buffer_locked true s).clicks_stored = s.clicks_stored + s.buffer.length ∧
      (flush_buffer_locked true s).batches_flushed = s.batches_flushed + 1 ∧
      (flush_buffer_locked true s).buffer = []) := by
  by_cases h : s.buffer.isEmpty
  · have hnil : s.buffer = [] := by
      cases hb : s.buffer with
      | nil => rfl
      | cons a l => rw [hb] at h; simp at h
    simp [flush_buffer_locked, h, hnil]
  · have hne : s.buffer ≠ [] := by
      cases hb : s.buffer with
      | nil => rw [hb] at h; simp at h
      | cons a l => simp
    simp [flush_buffer_locked, h]

/-- C3 witness: a failed flush of a one-event buffer leaves the event queued
and the counters untouched; a successful one bumps both counters. -/
theorem flush_failure_requeues_snapshot_witness :
    (({ buffer := hourlyScenarioClicks, clicks_stored := 5, batches_flushed := 2,
        pending_gauge := 3 } : StorageState).buffer ≠ [] ∧
      (flush_buffer_locked false
        { buffer := hourlyScenarioClicks, clicks_stored := 5, batches_flushed := 2,
          pending_gauge := 3 }).buffer = hourlyScenarioClicks) ∧
    (flush_buffer_locked true
        { buffer := hourlyScenarioClicks, clicks_stored := 5, batches_flushed := 2,
          pending_gauge := 3 }).clicks_stored = 5 + 3 ∧
    (flush_buffer_locked true
        { buffer := hourlyScenarioClicks, clicks_stored := 5, batches_flushed := 2,
          pending_gauge := 3 }).batches_flushed = 2 + 1 := by
  have h := flush_failure_requeues_snapshot
    { buffer := hourlyScenarioClicks, clicks_stored := 5, batches_flushed := 2,
      pending_gauge := 3 }
  have h4 := h.2.2.2 (by decide)
  exact ⟨⟨by decide, h.1⟩, h4.1, h4.2.1⟩

/-- C4 counterexample: on the timer-triggered path with a non-empty buffer and
a succeeding insert, the `dbInsert` step does NOT happen with the lock
released — the flush performs the database insert inside the
`async with self._buffer_lock` block, contradicting the claim that the lock is
released before the insert. -/
theorem insert_not_outside_lock_counterexample :
    outsideLockScan BufAction.dbInsert (flushBufferTrace false true) 0 = false := by
  decide

/-- C4 amended: on both the timer-triggered and the size-triggered flush path,
the snapshot-and-clear step AND the bulk database insert are performed while
the buffer lock is held; the lock is held for the entire flush, including the
storage call. -/
theorem flush_runs_entirely_under_lock (bufEmpty sizeTrigger insertOk : Bool) :
    underLockScan BufAction.dbInsert (flushBufferTrace bufEmpty insertOk) 0 = true ∧
    underLockScan BufAction.snapshotClear (flushBufferTrace bufEmpty insertOk) 0 = true ∧
    underLockScan BufAction.dbInsert (addToBufferTrace sizeTrigger insertOk) 0 = true ∧
    underLockScan BufAction.snapshotClear (addToBufferTrace sizeTrigger insertOk) 0 = true := by
  cases bufEmpty <;> cases sizeTrigger <;> cases insertOk <;> decide

/-! ## Scheduler: job failures are logged, not counted, and do not stop the loop -/

/-- C8 counterexample: a failing hourly tick only appends a log entry — the
aggregator's run counters (its only counters) are untouched, so the failure is
not counted as a failed run anywhere; the same holds for the daily loop. -/
theorem failed_run_not_counted_counterexample :
    hourly_tick (Except.error "db down") { hourly_runs := 0, daily_runs := 0, log := [] } =
      { hourly_runs := 0, daily_runs := 0,
        log := ["Hourly aggregation failed: db down"] } ∧
    daily_tick (Except.error "db down") { hourly_runs := 0, daily_runs := 0, log := [] } =
      { hourly_runs := 0, daily_runs := 0,
        log := ["Daily aggregation failed: db down"] } := by
  decide

/-- C8 amended: an exception inside an aggregation run is caught at the job
boundary and logged (one log entry per failed tick); the run counter counts
exactly the successful ticks, so later ticks keep running independently of
earlier failures, and the scheduler never crashes. -/
theorem scheduler_survives_failed_runs (outcomes : List (Except String Nat))
    (s : AggregatorState) :
    (hourly_loop outcomes s).hourly_runs = s.hourly_runs + outcomes.countP tickOk ∧
    (hourly_loop outcomes s).log.length =
      s.log.length + outcomes.countP (fun o => ! tickOk o) ∧
    (daily_loop outcomes s).daily_runs = s.daily_runs + outcomes.countP tickOk ∧
    (daily_loop outcomes s).log.length =
      s.log.length + outcomes.countP (fun o => ! tickOk o) := by
  induction outcomes generalizing s with
  | nil => simp [hourly_loop, daily_loop]
  | cons o rest ih =>
    have hh : hourly_loop (o :: rest) s = hourly_loop rest (hourly_tick o s) := rfl
    have hd : daily_loop (o :: rest) s = daily_loop rest (daily_tick o s) := rfl
    rw [hh, hd]
    obtain ⟨ih1, ih2, ih3, ih4⟩ := ih (hourly_tick o s)
    obtain ⟨jh1, jh2, jh3, jh4⟩ := ih (daily_tick o s)
    cases o with
    | ok v =>
      refine ⟨?_, ?_, ?_, ?_⟩
      · rw [ih1]; simp [hourly_tick, tickOk, List.countP_cons]; omega
      · rw [ih2]; simp [hourly_tick, tickOk, List.countP_cons]
      · rw [jh3]; simp [daily_tick, tickOk, List.countP_cons]; omega
      · rw [jh4]; simp [daily_tick, tickOk, List.countP_cons]
    | error e =>
      refine ⟨?_, ?_, ?_, ?_⟩
      · rw [ih1]; simp [hourly_tick, tickOk, List.countP_cons]
      · rw [ih2]; simp [hourly_tick, tickOk, List.countP_cons]; omega
      · rw [jh3]; simp [daily_tick, tickOk, List.countP_cons]
      · rw [jh4]; simp [daily_tick, tickOk, List.countP_cons]; omega

/-! ## Consumer: malformed input is dropped, valid events reach every handler -/

theorem process_message_received (now : Nat) (handlers : List Handler)
    (m : InboundMessage) (s : ConsumerState) :
    (process_message now handlers m s).1.received_total = s.received_total + 1 := by
  unfold process_message
  cases m with
  | malformed raw => rfl
  | payload p => cases hv : validateClickEvent now p <;> simp [hv]

theorem consume_loop_receives_all (now : Nat) (handlers : List Handler)
    (msgs : List InboundMessage) (s : ConsumerState) :
    (consume_loop now handlers msgs s).1.received_total =
      s.received_total + msgs.length := by
  suffices h : ∀ acc : ConsumerState × List String,
      ((msgs.foldl (fun acc m =>
        let r := process_message now handlers m acc.1
        (r.1, acc.2 ++ r.2)) acc).1.received_total =
        acc.1.received_total + msgs.length) by
    exact h (s, [])
  induction msgs with
  | nil => intro acc; simp
  | cons m rest ih =>
    intro acc
    simp only [List.foldl_cons, List.length_cons]
    rw [ih]
    rw [process_message_received]
    omega

/-- C5: a message failing JSON decoding, and a decoded payload failing
`ClickEvent` validation, are each logged, counted under their own failure
counter, and discarded — no handler is invoked and the processed counters do
not move — and the receive loop still examines every message of the schedule. -/
theorem malformed_message_dropped (now : Nat) (handlers : List Handler)
    (s : ConsumerState) (raw : String) (p : RawClickPayload)
    (hp : validateClickEvent now p = none) :
    (process_message now handlers (.malformed raw) s).2 = [] ∧
    (process_message now handlers (.malformed raw) s).1.events_processed =
      s.events_processed ∧
    (process_message now handlers (.malformed raw) s).1.processed_total =
      s.processed_total ∧
    (process_message now handlers (.malformed raw) s).1.events_failed =
      s.events_failed + 1 ∧
    (process_message now handlers (.malformed raw) s).1.failed_invalid_json =
      s.failed_invalid_json + 1 ∧
    (process_message now handlers (.malformed raw) s).1.log =
      s.log ++ ["Invalid JSON in click event"] ∧
    (process_message now handlers (.payload p) s).2 = [] ∧
    (process_message now handlers (.payload p) s).1.events_processed =
      s.events_processed ∧
    (process_message now handlers (.payload p) s).1.processed_total =
      s.processed_total ∧
    (process_message now handlers (.payload p) s).1.events_failed =
      s.events_failed + 1 ∧
    (process_message now handlers (.payload p) s).1.failed_invalid_schema =
      s.failed_invalid_schema + 1 ∧
    (process_message now handlers (.payload p) s).1.log =
      s.log ++ ["Invalid click event schema"] ∧
    (∀ msgs : List InboundMessage,
      (consume_loop now handlers msgs s).1.received_total =
        s.received_total + msgs.length) := by
  refine ⟨rfl, rfl, rfl, rfl, rfl, rfl, ?_, ?_, ?_, ?_, ?_, ?_,
    fun msgs => consume_loop_receives_all now handlers msgs s⟩
  all_goals simp [process_message, hp]

/-- C5 witness: at a concrete bad payload (missing `link_id`) and a concrete
unparsable message, the failure counters move, no handler runs and the
processed counter stays. -/
theorem malformed_message_dropped_witness :
    validateClickEvent 100
      { link_id := none, short_code := some "abc", clicked_at := none,
        referrer := none, user_agent := none, ip_address := none } = none ∧
    (process_message 100 [] (InboundMessage.malformed "not json")
      { events_processed := 0, events_failed := 0, received_total := 0,
        processed_total := 0, failed_invalid_json := 0,
        failed_invalid_schema := 0, latencies_recorded := 0,
        log := [] }).1.failed_invalid_json = 0 + 1 ∧
    (process_message 100 []
      (InboundMessage.payload
        { link_id := none, short_code := some "abc", clicked_at := none,
          referrer := none, user_agent := none, ip_address := none })
      { events_processed := 0, events_failed := 0, received_total := 0,
        processed_total := 0, failed_invalid_json := 0,
        failed_invalid_schema := 0, latencies_recorded := 0,
        log := [] }).1.failed_invalid_schema = 0 + 1 ∧
    (process_message 100 []
      (InboundMessage.payload
        { link_id := none, short_code := some "abc", clicked_at := none,
          referrer := none, user_agent := none, ip_address := none })
      { events_processed := 0, events_failed := 0, received_total := 0,
        processed_total := 0, failed_invalid_json := 0,
        failed_invalid_schema := 0, latencies_recorded := 0,
        log := [] }).1.events_processed = 0 := by
  have h := malformed_message_dropped 100 []
    { events_processed := 0, events_failed := 0, received_total := 0,
      processed_total := 0, failed_invalid_json := 0,
      failed_invalid_schema := 0, latencies_recorded := 0, log := [] }
    "not json"
    { link_id := none, short_code := some "abc", clicked_at := none,
      referrer := none, user_agent := none, ip_address := none }
    (by decide)
  exact ⟨by decide, h.2.2.2.2.1, h.2.2.2.2.2.2.2.2.2.2.1, h.2.2.2.2.2.2.2.1⟩

theorem runHandlers_invocations (handlers : List Handler) (e : ClickEvent) :
    (runHandlers handlers e).1 = handlers.map Prod.fst := by
  suffices h : ∀ acc : List String × List String,
      (handlers.foldl (fun acc h =>
        match h.2 e with
        | .ok _ => (acc.1 ++ [h.1], acc.2)
        | .error _ => (acc.1 ++ [h.1], acc.2 ++ ["Handler error: " ++ h.1])) acc).1 =
        acc.1 ++ handlers.map Prod.fst by
    have h0 := h ([], [])
    simpa [runHandlers] using h0
  induction handlers with
  | nil => intro acc; simp
  | cons hd rest ih =>
    intro acc
    simp only [List.foldl_cons, List.map_cons]
    cases hr : hd.2 e with
    | ok u => rw [ih]; simp [hr]
    | error err => rw [ih]; simp [hr]

/-- C6: for a valid event every registered handler is invoked, in registration
order, regardless of which handlers raise; and after the handler loop the
processed counters and the latency record are bumped exactly once, again
regardless of per-handler outcomes. -/
theorem valid_event_runs_all_handlers (now : Nat) (handlers : List Handler)
    (p : RawClickPayload) (e : ClickEvent) (s : ConsumerState)
    (hv : validateClickEvent now p = some e) :
    (process_message now handlers (.payload p) s).2 = handlers.map Prod.fst ∧
    (process_message now handlers (.payload p) s).1.events_processed =
      s.events_processed + 1 ∧
    (process_message now handlers (.payload p) s).1.processed_total =
      s.processed_total + 1 ∧
    (process_message now handlers (.payload p) s).1.latencies_recorded =
      s.latencies_recorded + 1 ∧
    (process_message now handlers (.payload p) s).1.events_failed =
      s.events_failed := by
  simp [process_message, hv, runHandlers_invocations]

/-- C6 witness: with two handlers of which the first raises, both are invoked
in registration order and the processed counter still moves. -/
theorem valid_event_runs_all_handlers_witness :
    validateClickEvent 100
      { link_id := some 7, short_code := some "abc", clicked_at := some 42,
        referrer := none, user_agent := none, ip_address := none } =
      some
        { link_id := 7, short_code := "abc", clicked_at := 42,
          referrer := none, user_agent := none, ip_address := none } ∧
    (process_message 100
      [("store_click_handler", fun _ => Except.error "db down"),
       ("second_handler", fun _ => Except.ok ())]
      (InboundMessage.payload
        { link_id := some 7, short_code := some "abc", clicked_at := some 42,
          referrer := none, user_agent := none, ip_address := none })
      { events_processed := 0, events_failed := 0, received_total := 0,
        processed_total := 0, failed_invalid_json := 0,
        failed_invalid_schema := 0, latencies_recorded := 0,
        log := [] }).2 = ["store_click_handler", "second_handler"] ∧
    (process_message 100
      [("store_click_handler", fun _ => Except.error "db down"),
       ("second_handler", fun _ => Except.ok ())]
      (InboundMessage.payload
        { link_id := some 7, short_code := some "abc", clicked_at := some 42,
          referrer := none, user_agent := none, ip_address := none })
      { events_processed := 0, events_failed := 0, received_total := 0,
        processed_total := 0, failed_invalid_json := 0,
        failed_invalid_schema := 0, latencies_recorded := 0,
        log := [] }).1.events_processed = 0 + 1 := by
  have h := valid_event_runs_all_handlers 100
    [("store_click_handler", fun _ => Except.error "db down"),
     ("second_handler", fun _ => Except.ok ())]
    { link_id := some 7, short_code := some "abc", clicked_at := some 42,
      referrer := none, user_agent := none, ip_address := none }
    { link_id := 7, short_code := "abc", clicked_at := 42,
      referrer := none, user_agent := none, ip_address := none }
    { events_processed := 0, events_failed := 0, received_total := 0,
      processed_total := 0, failed_invalid_json := 0,
      failed_invalid_schema := 0, latencies_recorded := 0, log := [] }
    rfl
  exact ⟨rfl, h.1, h.2.1⟩

/-- C10: a payload carrying `link_id` and `short_code` but no click timestamp
still validates — `clicked_at` defaults to the consumer's current UTC time —
and the resulting event is processed: every handler is invoked with the
server-chosen timestamp and the schema-failure counter does not move.  Only
`link_id` and `short_code` are required: omitting either makes validation
fail, whatever the rest of the payload holds. -/
theorem missing_timestamp_defaults_to_now (now lid : Nat) (sc : String)
    (r ua ip : Option String) (handlers : List Handler) (s : ConsumerState) :
    validateClickEvent now
      { link_id := some lid, short_code := some sc, clicked_at := none,
        referrer := r, user_agent := ua, ip_address := ip } =
      some
        { link_id := lid, short_code := sc, clicked_at := now,
          referrer := r, user_agent := ua, ip_address := ip } ∧
    (process_message now handlers
      (InboundMessage.payload
        { link_id := some lid, short_code := some sc, clicked_at := none,
          referrer := r, user_agent := ua, ip_address := ip })
      s).1.events_processed = s.events_processed + 1 ∧
    (process_message now handlers
      (InboundMessage.payload
        { link_id := some lid, short_code := some sc, clicked_at := none,
          referrer := r, user_agent := ua, ip_address := ip })
      s).1.failed_invalid_schema = s.failed_invalid_schema ∧
    (process_message now handlers
      (InboundMessage.payload
        { link_id := some lid, short_code := some sc, clicked_at := none,
          referrer := r, user_agent := ua, ip_address := ip })
      s).2 = handlers.map Prod.fst ∧
    (∀ q : RawClickPayload,
      validateClickEvent now { q with link_id := none } = none ∧
      validateClickEvent now { q with short_code := none } = none) := by
  have h := valid_event_runs_all_handlers now handlers
    { link_id := some lid, short_code := some sc, clicked_at := none,
      referrer := r, user_agent := ua, ip_address := ip }
    { link_id := lid, short_code := sc, clicked_at := now,
      referrer := r, user_agent := ua, ip_address := ip }
    s rfl
  refine ⟨rfl, h.2.1, ?_, h.1, ?_⟩
  · simp only [process_message]
    rfl
  · intro q
    obtain ⟨ql, qs, qc, qr, qu, qi⟩ := q
    constructor
    · rfl
    · cases ql <;> rfl


/-! ## Daily top-N ranking: descending order and truncation -/

theorem insertRanked_perm (p : String × Nat) (l : List (String × Nat)) :
    List.Perm (insertRanked p l) (p :: l) := by
  induction l with
  | nil => exact List.Perm.refl _
  | cons q rest ih =>
    unfold insertRanked
    by_cases h : q.2 < p.2
    · rw [if_pos h]
    · rw [if_neg h]
      exact (List.Perm.cons q ih).trans (List.Perm.swap p q rest)

theorem rankDesc_perm (l : List (String × Nat)) : List.Perm (rankDesc l) l := by
  suffices h : ∀ acc : List (String × Nat),
      List.Perm (l.foldl (fun acc p => insertRanked p acc) acc) (acc ++ l) by
    simpa [rankDesc] using h []
  induction l with
  | nil => intro acc; simp
  | cons p rest ih =>
    intro acc
    simp only [List.foldl_cons]
    refine (ih _).trans ?_
    refine ((insertRanked_perm p acc).append_right rest).trans ?_
    simp only [List.cons_append]
    exact List.perm_middle.symm

theorem insertRanked_sorted {p : String × Nat} {l : List (String × Nat)}
    (h : l.Pairwise (fun a b => b.2 ≤ a.2)) :
    (insertRanked p l).Pairwise (fun a b => b.2 ≤ a.2) := by
  induction l with
  | nil => simp [insertRanked]
  | cons q rest ih =>
    rw [List.pairwise_cons] at h
    unfold insertRanked
    by_cases hq : q.2 < p.2
    · rw [if_pos hq]
      refine List.Pairwise.cons ?_ (List.Pairwise.cons h.1 h.2)
      intro x hx
      rcases List.mem_cons.mp hx with rfl | hx'
      · exact Nat.le_of_lt hq
      · exact Nat.le_trans (h.1 x hx') (Nat.le_of_lt hq)
    · rw [if_neg hq]
      refine List.Pairwise.cons ?_ (ih h.2)
      intro x hx
      rcases List.mem_cons.mp ((insertRanked_perm p rest).mem_iff.mp hx) with rfl | hx'
      · exact Nat.le_of_not_lt hq
      · exact h.1 x hx'

theorem rankDesc_sorted (l : List (String × Nat)) :
    (rankDesc l).Pairwise (fun a b => b.2 ≤ a.2) := by
  suffices h : ∀ acc : List (String × Nat), acc.Pairwise (fun a b => b.2 ≤ a.2) →
      (l.foldl (fun acc p => insertRanked p acc) acc).Pairwise (fun a b => b.2 ≤ a.2) by
    exact h [] (by simp)
  induction l with
  | nil => intro acc hacc; simpa using hacc
  | cons p rest ih =>
    intro acc hacc
    simp only [List.foldl_cons]
    exact ih _ (insertRanked_sorted hacc)

theorem perm_two {α : Type} {r : List α} {a b : α} (h : List.Perm r [a, b]) :
    r = [a, b] ∨ r = [b, a] := by
  have hlen := h.length_eq
  cases r with
  | nil => simp at hlen
  | cons x r1 =>
    cases r1 with
    | nil => simp at hlen
    | cons y r2 =>
      cases r2 with
      | cons z r3 => simp at hlen
      | nil =>
        have hx : x ∈ [a, b] := h.mem_iff.mp (List.mem_cons_self x [y])
        rcases List.mem_cons.mp hx with rfl | hx'
        · left
          have h2 : List.Perm [y] [b] := (List.perm_cons x).mp h
          rw [List.perm_singleton.mp h2]
        · rcases List.mem_singleton.mp hx' with rfl
          right
          have hswap : List.Perm [a, x] [x, a] := List.Perm.swap x a []
          have h2 : List.Perm [y] [a] := (List.perm_cons x).mp (h.trans hswap)
          rw [List.perm_singleton.mp h2]

theorem perm_three {α : Type} {r : List α} {a b c : α} (h : List.Perm r [a, b, c]) :
    r = [a, b, c] ∨ r = [a, c, b] ∨ r = [b, a, c] ∨ r = [b, c, a] ∨
      r = [c, a, b] ∨ r = [c, b, a] := by
  have hlen := h.length_eq
  cases r with
  | nil => simp at hlen
  | cons x r1 =>
    have hx : x ∈ [a, b, c] := h.mem_iff.mp (List.mem_cons_self x r1)
    rcases List.mem_cons.mp hx with rfl | hx'
    · have h2 : List.Perm r1 [b, c] := (List.perm_cons x).mp h
      rcases perm_two h2 with rfl | rfl
      · exact Or.inl rfl
      · exact Or.inr (Or.inl rfl)
    · rcases List.mem_cons.mp hx' with rfl | hx''
      · have hswap : List.Perm [a, x, c] (x :: [a, c]) := List.Perm.swap x a [c]
        have h2 : List.Perm r1 [a, c] := (List.perm_cons x).mp (h.trans hswap)
        rcases perm_two h2 with rfl | rfl
        · exact Or.inr (Or.inr (Or.inl rfl))
        · exact Or.inr (Or.inr (Or.inr (Or.inl rfl)))
      · rcases List.mem_singleton.mp hx'' with rfl
        have hswap : List.Perm [a, b, x] (x :: [a, b]) :=
          (List.Perm.cons a (List.Perm.swap x b [])).trans (List.Perm.swap x a [b])
        have h2 : List.Perm r1 [a, b] := (List.perm_cons x).mp (h.trans hswap)
        rcases perm_two h2 with rfl | rfl
        · exact Or.inr (Or.inr (Or.inr (Or.inr (Or.inl rfl))))
        · exact Or.inr (Or.inr (Or.inr (Or.inr (Or.inr rfl))))

/-- On the tie scenario (referrer counts `A:5, B:5, C:3`, `N = 2`) every
admissible query result consists of the two count-5 groups, in one of the two
orders; `C` is always excluded. -/
theorem topn_scenario_outputs (o : List (String × Nat))
    (h : topReferrersResult topNScenarioClicks 1 0 2 o) :
    o = [("A", 5), ("B", 5)] ∨ o = [("B", 5), ("A", 5)] := by
  obtain ⟨ranked, hperm, hsort, heq⟩ := h
  have hg : groupCounts (referrerValues topNScenarioClicks 1 0) =
      [("A", 5), ("B", 5), ("C", 3)] := by decide
  rw [hg] at hperm
  rcases perm_three hperm with rfl | rfl | rfl | rfl | rfl | rfl
  · exact Or.inl (heq.trans (by decide))
  · exact absurd hsort (by decide)
  · exact Or.inr (heq.trans (by decide))
  · exact absurd hsort (by decide)
  · exact absurd hsort (by decide)
  · exact absurd hsort (by decide)

/-- C7 counterexample: the recompute query (`ORDER BY count() DESC LIMIT n`,
no secondary sort key) does not break ties deterministically — on referrer
counts `A:5, B:5, C:3` with `N = 2`, both tie orders are admissible results of
the query, so the output is not determined to follow first-seen order. -/
theorem topn_tie_order_not_deterministic :
    topReferrersResult topNScenarioClicks 1 0 2 [("A", 5), ("B", 5)] ∧
    topReferrersResult topNScenarioClicks 1 0 2 [("B", 5), ("A", 5)] ∧
    ([("A", 5), ("B", 5)] : List (String × Nat)) ≠ [("B", 5), ("A", 5)] := by
  refine ⟨⟨[("A", 5), ("B", 5), ("C", 3)], ?_, ?_, ?_⟩,
    ⟨[("B", 5), ("A", 5), ("C", 3)], ?_, ?_, ?_⟩, ?_⟩ <;> decide

/-- C7 (amended): every admissible result of the daily top-N referrer and
country queries is sorted descending by count and truncated to the configured
`top_n`, and an admissible result always exists; the relative order of groups
tied on count is left open by the query.  On referrer counts `A:5, B:5, C:3`
with `N = 2`, every admissible output contains exactly the groups `A` and `B`
(in one of the two orders) and excludes `C`. -/
theorem daily_topn_sorted_truncated (clicks : List Click) (lid dt n : Nat)
    (out outc : List (String × Nat))
    (hr : topReferrersResult clicks lid dt n out)
    (hc : topCountriesResult clicks lid dt n outc) :
    out.Pairwise (fun a b => b.2 ≤ a.2) ∧ out.length ≤ n ∧
    (∀ p ∈ out, p ∈ groupCounts (referrerValues clicks lid dt)) ∧
    outc.Pairwise (fun a b => b.2 ≤ a.2) ∧ outc.length ≤ n ∧
    (∀ p ∈ outc, p ∈ groupCounts (countryValues clicks lid dt)) ∧
    (∃ o, topReferrersResult clicks lid dt n o) ∧
    (∀ o, topReferrersResult topNScenarioClicks 1 0 2 o →
      o = [("A", 5), ("B", 5)] ∨ o = [("B", 5), ("A", 5)]) := by
  obtain ⟨r1, hp1, hs1, he1⟩ := hr
  obtain ⟨r2, hp2, hs2, he2⟩ := hc
  subst he1
  subst he2
  refine ⟨hs1.sublist (List.take_sublist n r1), List.length_take_le n r1, ?_,
    hs2.sublist (List.take_sublist n r2), List.length_take_le n r2, ?_, ?_,
    topn_scenario_outputs⟩
  · intro p hp
    exact hp1.mem_iff.mp ((List.take_sublist n r1).subset hp)
  · intro p hp
    exact hp2.mem_iff.mp ((List.take_sublist n r2).subset hp)
  · exact ⟨(rankDesc (groupCounts (referrerValues clicks lid dt))).take n,
      rankDesc (groupCounts (referrerValues clicks lid dt)),
      rankDesc_perm _, rankDesc_sorted _, rfl⟩

/-- C7 witness: the representative outputs `[A, B]` (referrers, tie case) and
`[]` (countries, no data) are admissible, and the theorem's order and length
bounds hold for them concretely. -/
theorem daily_topn_sorted_truncated_witness :
    topReferrersResult topNScenarioClicks 1 0 2 [("A", 5), ("B", 5)] ∧
    topCountriesResult topNScenarioClicks 1 0 2 [] ∧
    ([("A", 5), ("B", 5)] : List (String × Nat)).Pairwise (fun a b => b.2 ≤ a.2) ∧
    ([("A", 5), ("B", 5)] : List (String × Nat)).length ≤ 2 := by
  have hr : topReferrersResult topNScenarioClicks 1 0 2 [("A", 5), ("B", 5)] :=
    ⟨[("A", 5), ("B", 5), ("C", 3)], by decide, by decide, by decide⟩
  have hc : topCountriesResult topNScenarioClicks 1 0 2 [] :=
    ⟨[], by decide, by decide, by decide⟩
  have h := daily_topn_sorted_truncated topNScenarioClicks 1 0 2
    [("A", 5), ("B", 5)] [] hr hc
  exact ⟨hr, hc, h.1, h.2.1⟩

/-! ## Daily aggregation: the returned count covers every examined pair -/

theorem aggregate_daily_for_link_wrote (clicks : List Click) (lid d n : Nat)
    (t : DailyTable) :
    (aggregate_daily_for_link clicks lid d n t).2 =
      ! decide ((dailyLinkClicks clicks lid d).length = 0) := by
  unfold aggregate_daily_for_link
  by_cases h : (dailyLinkClicks clicks lid d).length = 0 <;> simp [h]

theorem daily_offsets_fold (clicks : List Click) (lid n startDate : Nat)
    (offs : List Nat) :
    ∀ acc : Nat × DailyTable × Nat,
      (offs.foldl (fun acc2 off =>
          let r := aggregate_daily_for_link clicks lid (startDate + off) n acc2.2.1
          (acc2.1 + 1, r.1, acc2.2.2 + if r.2 then 1 else 0)) acc).1 =
        acc.1 + offs.length ∧
      (offs.foldl (fun acc2 off =>
          let r := aggregate_daily_for_link clicks lid (startDate + off) n acc2.2.1
          (acc2.1 + 1, r.1, acc2.2.2 + if r.2 then 1 else 0)) acc).2.2 =
        acc.2.2 + offs.countP (fun off =>
          ! decide ((dailyLinkClicks clicks lid (startDate + off)).length = 0)) := by
  induction offs with
  | nil => intro acc; exact ⟨by simp, by simp⟩
  | cons off rest ih =>
    intro acc
    simp only [List.foldl_cons]
    obtain ⟨ih1, ih2⟩ := ih
      (let r := aggregate_daily_for_link clicks lid (startDate + off) n acc.2.1
       (acc.1 + 1, r.1, acc.2.2 + if r.2 then 1 else 0))
    constructor
    · rw [ih1]
      simp only [List.length_cons]
      omega
    · rw [ih2]
      simp only [List.countP_cons, aggregate_daily_for_link_wrote]
      by_cases h : (dailyLinkClicks clicks lid (startDate + off)).length = 0 <;>
        (simp [h]; try omega)

theorem daily_links_fold (clicks : List Click) (n startDate daysBack : Nat)
    (lids : List Nat) :
    ∀ acc : Nat × DailyTable × Nat,
      (lids.foldl (fun acc lid =>
          (List.range (daysBack + 1)).foldl (fun acc2 off =>
            let r := aggregate_daily_for_link clicks lid (startDate + off) n acc2.2.1
            (acc2.1 + 1, r.1, acc2.2.2 + if r.2 then 1 else 0)) acc) acc).1 =
        acc.1 + lids.length * (daysBack + 1) ∧
      (lids.foldl (fun acc lid =>
          (List.range (daysBack + 1)).foldl (fun acc2 off =>
            let r := aggregate_daily_for_link clicks lid (startDate + off) n acc2.2.1
            (acc2.1 + 1, r.1, acc2.2.2 + if r.2 then 1 else 0)) acc) acc).2.2 =
        acc.2.2 + (lids.map (fun lid =>
          (List.range (daysBack + 1)).countP (fun off =>
            ! decide ((dailyLinkClicks clicks lid (startDate + off)).length = 0)))).sum := by
  induction lids with
  | nil => intro acc; exact ⟨by simp, by simp⟩
  | cons lid rest ih =>
    intro acc
    simp only [List.foldl_cons]
    obtain ⟨ih1, ih2⟩ := ih
      ((List.range (daysBack + 1)).foldl (fun acc2 off =>
        let r := aggregate_daily_for_link clicks lid (startDate + off) n acc2.2.1
        (acc2.1 + 1, r.1, acc2.2.2 + if r.2 then 1 else 0)) acc)
    obtain ⟨hi1, hi2⟩ := daily_offsets_fold clicks lid n startDate
      (List.range (daysBack + 1)) acc
    constructor
    · rw [ih1, hi1]
      simp only [List.length_cons, List.length_range]
      ring
    · rw [ih2, hi2]
      simp only [List.map_cons, List.sum_cons]
      omega

/-- C9: when at least one link has raw clicks in the look-back window, the
daily job's returned count equals (number of distinct links with clicks in the
window) × (days_back + 1): every examined (link, date) pair is counted,
including pairs with zero clicks, for which no row is written — so the number
of rows actually upserted never exceeds (and can fall short of) the returned
count. -/
theorem daily_count_covers_all_pairs (clicks : List Click) (daysBack today n : Nat)
    (table : DailyTable)
    (h : dailyLinkIds clicks (today - daysBack) ≠ []) :
    (aggregate_daily clicks daysBack today n table).1 =
      (dailyLinkIds clicks (today - daysBack)).length * (daysBack + 1) ∧
    (aggregate_daily clicks daysBack today n table).2.2 =
      ((dailyLinkIds clicks (today - daysBack)).map (fun lid =>
        (List.range (daysBack + 1)).countP (fun off =>
          ! decide ((dailyLinkClicks clicks lid (today - daysBack + off)).length = 0)))).sum ∧
    (aggregate_daily clicks daysBack today n table).2.2 ≤
      (aggregate_daily clicks daysBack today n table).1 := by
  have hne : (dailyLinkIds clicks (today - daysBack)).isEmpty = false := by
    cases hl : dailyLinkIds clicks (today - daysBack) with
    | nil => exact absurd hl h
    | cons a l => rfl
  unfold aggregate_daily
  simp only [hne, Bool.false_eq_true, if_false]
  obtain ⟨h1, h2⟩ := daily_links_fold clicks n (today - daysBack) daysBack
    (dailyLinkIds clicks (today - daysBack)) (0, table, 0)
  refine ⟨by rw [h1]; simp, by rw [h2]; simp, ?_⟩
  rw [h1, h2]
  simp only [show ((0 : Nat), table, (0 : Nat)).1 = 0 from rfl,
    show ((0 : Nat), table, (0 : Nat)).2.2 = 0 from rfl, Nat.zero_add]
  have hb : ∀ x ∈ (dailyLinkIds clicks (today - daysBack)).map (fun lid =>
      (List.range (daysBack + 1)).countP (fun off =>
        ! decide ((dailyLinkClicks clicks lid (today - daysBack + off)).length = 0))),
      x ≤ daysBack + 1 := by
    intro x hx
    rw [List.mem_map] at hx
    obtain ⟨lid, _, hxe⟩ := hx
    rw [← hxe]
    calc (List.range (daysBack + 1)).countP _ ≤ (List.range (daysBack + 1)).length :=
      List.countP_le_length _
    _ = daysBack + 1 := List.length_range _
  calc ((dailyLinkIds clicks (today - daysBack)).map _).sum ≤
      ((dailyLinkIds clicks (today - daysBack)).map (fun lid =>
        (List.range (daysBack + 1)).countP (fun off =>
          ! decide ((dailyLinkClicks clicks lid (today - daysBack + off)).length = 0)))).length *
        (daysBack + 1) := by
        rw [← smul_eq_mul]
        exact List.sum_le_card_nsmul _ _ hb
  _ = (dailyLinkIds clicks (today - daysBack)).length * (daysBack + 1) := by
        rw [List.length_map]

/-- C9 witness: one link with clicks only on day 0, `days_back = 1` — the
job examines 2 pairs and returns 2, while only 1 row is written. -/
theorem daily_count_covers_all_pairs_witness :
    dailyLinkIds topNScenarioClicks 0 ≠ [] ∧
    (aggregate_daily topNScenarioClicks 1 0 10 []).1 = 2 ∧
    (aggregate_daily topNScenarioClicks 1 0 10 []).2.2 = 1 ∧
    (aggregate_daily topNScenarioClicks 1 0 10 []).2.2 <
      (aggregate_daily topNScenarioClicks 1 0 10 []).1 := by
  have h := daily_count_covers_all_pairs topNScenarioClicks 1 0 10 [] (by decide)
  refine ⟨by decide, ?_, ?_, ?_⟩
  · rw [h.1]; decide
  · rw [h.2.1]; decide
  · rw [h.1, h.2.1]; decide

end Brevy
